import Mathlib

/-!
Verification of the anonymacy rule-based PII detection and redaction
library against its natural-language specification.

The Python source is shallowly embedded: pure functions become Lean
functions, dict-based state becomes explicit record passing, floats
become exact rationals, and raised exceptions become `Except` /
explicit error components.  Host-pipeline collaborators (the spaCy
tokenizer, matchers, dependency parses) are parameters of the
embedded functions, never reimplemented.
-/

namespace Anonymacy

/-- A document token: literal text plus the trailing-whitespace flag
(spaCy `token.text` and `bool(token.whitespace_)`). -/
structure Token where
  text : String
  ws : Bool
deriving DecidableEq, Repr

/-- A span over a document's token range `[start, stop)` with the
out-of-band attributes used by the pipeline: confidence `score`
(default 0.0), producing `source` (default "unknown"), accumulated
`supportive_context` snippets (field `ctx`, default empty) and an
optional pattern instance id (field `spanId`, default empty). -/
structure PSpan where
  start : ℕ
  stop : ℕ
  score : ℚ := 0
  label : String
  source : String := "unknown"
  ctx : List String := []
  spanId : String := ""
deriving DecidableEq, Repr

/-! ## Validator library: the eleven-test (`elf_proef`, validator.py) -/

/-- Integer value of a digit character, as Python `int(char)`. -/
def charVal (c : Char) : ℤ := (c.toNat : ℤ) - 48

/-- The eleven-test weights `[9, 8, 7, 6, 5, 4, 3, 2, -1]`. -/
def elfWeights : List ℤ := [9, 8, 7, 6, 5, 4, 3, 2, -1]

/-- Weighted digit sum `Σ digit_i * weight_i` over the nine digits,
as the `zip` loop in `elf_proef`. -/
def weightedSum (ds : List Char) : ℤ :=
  ((ds.zip elfWeights).map (fun p => charVal p.1 * p.2)).sum

/-- Embedding of `validator.elf_proef` (validator.py lines 4-19): strip
non-digits, reject all-identical digit strings, prepend '0' to
8-digit strings, require 9 digits, accept iff the weighted sum is
divisible by 11.  The all-identical test mirrors Python's
`all(only_digits[0] == c for c in only_digits)`, which is vacuously
true (hence a rejection) for a digit-free string. -/
def elf_proef (s : String) : Bool :=
  let onlyDigits := s.data.filter Char.isDigit
  if onlyDigits.all (fun c => onlyDigits.head? == some c) then false
  else
    let ds := if onlyDigits.length == 8 then '0' :: onlyDigits else onlyDigits
    if ds.length != 9 then false
    else weightedSum ds % 11 == 0

/-- The specification's description of the eleven-test, written from the
spec's words for comparison with the code embedding `elf_proef`: the
stripped digits are not all identical, after the conditional '0'
prepend exactly 9 digits remain, and the weighted sum is divisible
by 11. -/
def elfProefSpec (s : String) : Prop :=
  let ds := s.data.filter Char.isDigit
  (∃ a ∈ ds, ∃ b ∈ ds, a ≠ b) ∧
  (if ds.length = 8 then '0' :: ds else ds).length = 9 ∧
  (11 : ℤ) ∣ weightedSum (if ds.length = 8 then '0' :: ds else ds)

/-! ## Span-overlap filter utility (span_filter.py / conflict_resolver.py) -/

/-- Python's descending sort key
`(score, end - start, -start)` for `highest_confidence_filter`. -/
def spanKey (s : PSpan) : ℚ × ℕ × ℤ := (s.score, s.stop - s.start, -(s.start : ℤ))

/-- Lexicographic comparison of two sort keys, Python tuple order. -/
def keyLE (k l : ℚ × ℕ × ℤ) : Bool :=
  k.1 < l.1 ∨ (k.1 = l.1 ∧ (k.2.1 < l.2.1 ∨ (k.2.1 = l.2.1 ∧ k.2.2 ≤ l.2.2)))

/-- Order used for the descending stable sort in
`highest_confidence_filter`: `a` comes before `b` when its key is
greater or equal (Python `sorted(..., reverse=True)` is stable). -/
def descLE (a b : PSpan) : Prop := keyLE (spanKey b) (spanKey a) = true

instance : DecidableRel descLE := fun _ _ => instDecidableEqBool _ _

/-- Order used to return the accepted spans sorted by ascending start. -/
def startLE (a b : PSpan) : Prop := a.start ≤ b.start

instance : DecidableRel startLE := fun a b => Nat.decLe a.start b.start

/-- Token positions covered by a span, the `range(span.start, span.end)`
claimed in `seen_tokens`. -/
def spanRange (s : PSpan) : Finset ℕ := Finset.Ico s.start s.stop

/-- Greedy claim loop of `highest_confidence_filter`: walk the sorted
spans, accept a span only when none of its token positions is
already claimed, then claim all its positions. -/
def greedyAccept : List PSpan → Finset ℕ → List PSpan
  | [], _ => []
  | s :: rest, seen =>
    if ∀ i ∈ spanRange s, i ∉ seen then s :: greedyAccept rest (seen ∪ spanRange s)
    else greedyAccept rest seen

/-- Embedding of `highest_confidence_filter`
(span_filter.py lines 14-47, identical copy in
conflict_resolver.py lines 22-55): sort descending by
`(score, length, -start)`, greedily accept non-conflicting spans,
return them sorted by ascending start. -/
def highest_confidence_filter (spans : List PSpan) : List PSpan :=
  (greedyAccept (spans.insertionSort descLE) ∅).insertionSort startLE

/-- Two spans share no token position. -/
def spanDisjoint (a b : PSpan) : Prop := spanRange a ∩ spanRange b = ∅

/-- Two spans overlap: some token position lies in both. -/
def overlapsSpans (a b : PSpan) : Prop := ∃ i ∈ spanRange a, i ∈ spanRange b

instance (a b : PSpan) : Decidable (overlapsSpans a b) := by
  unfold overlapsSpans
  infer_instance

/-! ## Anonymizer (anonymizer.py) -/

/-- A registered replacement rule: either a fixed string or a Python
callable, embedded as its positional parameter names together with
its behaviour on the supplied argument list. -/
inductive Rule where
  | str : String → Rule
  | call : List String → (List String → String) → Rule

/-- The error raised by `Anonymizer._apply_replacement` for a callable
of unsupported arity; the Python `TypeError` message names the label. -/
inductive PyErr where
  | typeError : String → PyErr
deriving DecidableEq, Repr

/-- Python `if params and params[0].name == "self": params = params[1:]`
— drop an implicit receiver parameter from the arity count. -/
def dropSelf : List String → List String
  | [] => []
  | n :: rest => if n = "self" then rest else n :: rest

/-- Python `label.upper()`: upper-case every character. -/
def pyUpper (s : String) : String := ⟨s.data.map Char.toUpper⟩

/-- Embedding of `Anonymizer._apply_replacement`
(anonymizer.py lines 88-111): no registered rule yields the default
bracket surrogate `[LABEL]`; a string rule is used verbatim; a
callable of effective arity 0 is invoked with no arguments, arity 1
with the span's original text, and any other arity raises a
`TypeError` naming the label. -/
def applyReplacement (reps : List (String × Rule)) (label : String) (text : String) :
    Except PyErr String :=
  match reps.lookup label with
  | none => .ok ("[" ++ pyUpper label ++ "]")
  | some (.str s) => .ok s
  | some (.call names f) =>
    let ps := dropSelf names
    if ps.isEmpty then .ok (f [])
    else if ps.length = 1 then .ok (f [text])
    else .error (.typeError label)

/-- A token's text including its trailing whitespace
(spaCy `token.text_with_ws`). -/
def textWithWs (t : Token) : String := t.text ++ (if t.ws then " " else "")

/-- Concatenation of a token run as spaCy `Span.text`: every token
carries its trailing whitespace except the last. -/
def joinTokens : List Token → String
  | [] => ""
  | [t] => t.text
  | t :: rest => textWithWs t ++ joinTokens rest

/-- The original matched text of a span, spaCy `span.text`. -/
def spanText (docToks : List Token) (sp : PSpan) : String :=
  joinTokens ((docToks.drop sp.start).take (sp.stop - sp.start))

/-- Trailing-whitespace flag of the original span's final token,
Python `bool(current_span[-1].whitespace_)`. -/
def origLastWs (docToks : List Token) (sp : PSpan) : Bool :=
  (((docToks.drop (sp.stop - 1)).head?).map Token.ws).getD false

/-- Python `if new_spaces: new_spaces[-1] = b` — overwrite the
trailing-whitespace flag of the most recently emitted output token,
a no-op on an empty output stream. -/
def setLastWs : List Token → Bool → List Token
  | [], _ => []
  | [t], b => [{ t with ws := b }]
  | t :: u :: rest, b => t :: setLastWs (u :: rest) b

/-- Embedding of the reconstruction walk of
`Anonymizer._make_anonymized_doc` (anonymizer.py lines 132-162):
copy tokens outside any pending span verbatim; on reaching a pending
span, resolve and tokenize its replacement through the host
tokenizer, append the replacement tokens, overwrite the last emitted
token's trailing-whitespace flag with the original span's final
flag, record the output position range with the label, and continue
past the span. -/
def anonLoop (tokenize : String → List Token) (reps : List (String × Rule))
    (docToks : List Token) (i : ℕ) (spans : List PSpan)
    (acc : List Token) (info : List (ℕ × ℕ × String)) :
    Except PyErr (List Token × List (ℕ × ℕ × String)) :=
  if h : i < docToks.length then
    match spans with
    | [] =>
      anonLoop tokenize reps docToks (i + 1) [] (acc ++ [docToks[i]]) info
    | sp :: rest =>
      if i < sp.start then
        anonLoop tokenize reps docToks (i + 1) (sp :: rest)
          (acc ++ [docToks[i]]) info
      else
        match applyReplacement reps sp.label (spanText docToks sp) with
        | .error e => .error e
        | .ok repText =>
          let repToks := tokenize repText
          anonLoop tokenize reps docToks sp.stop rest
            (setLastWs (acc ++ repToks) (origLastWs docToks sp))
            (info ++ [(acc.length, acc.length + repToks.length, sp.label)])
  else .ok (acc, info)
termination_by (spans.length, docToks.length - i)
decreasing_by
  · apply Prod.Lex.right
    show docToks.length - (i + 1) < docToks.length - i
    omega
  · apply Prod.Lex.right
    show docToks.length - (i + 1) < docToks.length - i
    omega
  · apply Prod.Lex.left
    exact Nat.lt_succ_self rest.length

/-- A document as the Anonymizer sees it: the token stream, the primary
entity collection and the named auxiliary span collections. -/
structure Doc where
  tokens : List Token
  ents : List PSpan
  spansMap : List (String × List PSpan)
deriving DecidableEq, Repr

/-- Contents of an auxiliary span collection,
Python `doc.spans.get(key, [])`. -/
def getSpansKey (d : Doc) (key : String) : List PSpan :=
  (d.spansMap.lookup key).getD []

/-- Embedding of `Anonymizer._get_spans`: the primary entity collection
verbatim for style "ent", otherwise the named auxiliary collection
passed through the highest-confidence overlap filter. -/
def getSelectedSpans (style spansKey : String) (d : Doc) : List PSpan :=
  if style = "ent" then d.ents
  else highest_confidence_filter (getSpansKey d spansKey)

/-- Embedding of `Anonymizer._make_anonymized_doc`
(anonymizer.py lines 113-180): select and sort the sensitive spans;
with none, return a token-for-token structural copy without
annotations; otherwise run the reconstruction walk and attach one
new span per recorded replacement range, into the primary entity
collection or the named auxiliary collection per the style. -/
def makeAnonymizedDoc (tokenize : String → List Token) (reps : List (String × Rule))
    (style spansKey : String) (d : Doc) : Except PyErr Doc :=
  let sensitive := (getSelectedSpans style spansKey d).insertionSort startLE
  if sensitive.isEmpty then .ok ⟨d.tokens, [], []⟩
  else
    match anonLoop tokenize reps d.tokens 0 sensitive [] [] with
    | .error e => .error e
    | .ok (toks, info) =>
      let newSpans := info.map (fun t => ({ start := t.1, stop := t.2.1, label := t.2.2 } : PSpan))
      if style = "ent" then .ok ⟨toks, newSpans, []⟩
      else .ok ⟨toks, [], [(spansKey, newSpans)]⟩

/-- A document together with its out-of-band anonymized-copy slot
(`doc._.anonymized`). -/
structure DocState where
  doc : Doc
  anonymized : Option Doc
deriving DecidableEq, Repr

/-- Embedding of `Anonymizer.__call__` (anonymizer.py lines 39-45):
derive the anonymized copy, store it in the input document's
anonymized-copy slot and return the input document; an exception
from a replacement rule propagates and leaves the state untouched. -/
def anonymizerCall (tokenize : String → List Token) (reps : List (String × Rule))
    (style spansKey : String) (st : DocState) : Except PyErr DocState :=
  match makeAnonymizedDoc tokenize reps style spansKey st.doc with
  | .error e => .error e
  | .ok derived => .ok ⟨st.doc, some derived⟩

/-! ## Recognizer (recognizer.py) -/

/-- Python dict assignment `spans[key] = v` on an insertion-ordered
dictionary embedded as an association list: replace the value at an
existing key in place, otherwise append the binding. -/
def setKey {α β : Type} [DecidableEq α] : List (α × β) → α → β → List (α × β)
  | [], k, v => [(k, v)]
  | p :: rest, k, v =>
    if p.1 = k then (k, v) :: rest else p :: setKey rest k v

/-- The value of a pattern entry's `pattern` key: a literal phrase
string or a token-pattern list (its structure is inert here and
carried as text). -/
inductive PatVal where
  | phrase : String → PatVal
  | tokens : String → PatVal
deriving DecidableEq, Repr

/-- An entry of `Recognizer._match_label_id_map`: label, optional id
and the score resolved at registration time
(`entry.get("score", self.default_score)`, not yet clamped). -/
structure MapVal where
  label : String
  pid : String
  score : ℚ
deriving DecidableEq, Repr

/-- One step of the pattern-match phase of `Recognizer.match`
(recognizer.py lines 138-160): skip unknown match ids and zero-length
hits, clamp the score to 1.0, keep an existing same-position span of
greater-or-equal score, apply the label's validator (only when any
validator is registered) before the hit may occupy the position. -/
def processHit (matchMap : List (ℕ × MapVal))
    (validators : List (String × (PSpan → Bool)))
    (table : List ((ℕ × ℕ) × PSpan)) (hit : ℕ × ℕ × ℕ) :
    List ((ℕ × ℕ) × PSpan) :=
  match matchMap.lookup hit.1 with
  | none => table
  | some info =>
    if hit.2.1 = hit.2.2 then table
    else
      let score := min info.score 1
      let sp : PSpan :=
        { start := hit.2.1, stop := hit.2.2, score := score,
          label := info.label, spanId := info.pid }
      match table.lookup (hit.2.1, hit.2.2) with
      | some existing =>
        if score ≤ existing.score then table
        else if validators.isEmpty = false ∧
            ((validators.lookup sp.label).getD (fun _ => true)) sp = false then table
        else setKey table (hit.2.1, hit.2.2) sp
      | none =>
        if validators.isEmpty = false ∧
            ((validators.lookup sp.label).getD (fun _ => true)) sp = false then table
        else setKey table (hit.2.1, hit.2.2) sp

/-- One step of the custom-matcher phase of `Recognizer.match`
(recognizer.py lines 162-184): clamp the supplied score to 1.0, fall
back to the configured default score when it is non-positive, then
apply the same position-deduplication and validator rules. -/
def processCustomHit (defaultScore : ℚ)
    (validators : List (String × (PSpan → Bool))) (label : String)
    (table : List ((ℕ × ℕ) × PSpan)) (hit : ℕ × ℕ × ℚ) :
    List ((ℕ × ℕ) × PSpan) :=
  let score0 := min hit.2.2 1
  let score := if score0 ≤ 0 then defaultScore else score0
  let sp : PSpan := { start := hit.1, stop := hit.2.1, score := score, label := label }
  match table.lookup (hit.1, hit.2.1) with
  | some existing =>
    if score ≤ existing.score then table
    else if validators.isEmpty = false ∧
        ((validators.lookup sp.label).getD (fun _ => true)) sp = false then table
    else setKey table (hit.1, hit.2.1) sp
  | none =>
    if validators.isEmpty = false ∧
        ((validators.lookup sp.label).getD (fun _ => true)) sp = false then table
    else setKey table (hit.1, hit.2.1) sp

/-- Final ordering of `Recognizer.match`:
`sorted(spans.values(), key=lambda s: (s.start, s.end))`. -/
def posLE (a b : PSpan) : Prop :=
  a.start < b.start ∨ (a.start = b.start ∧ a.stop ≤ b.stop)

instance : DecidableRel posLE := fun _ _ => instDecidableOr

/-- Embedding of `Recognizer.match` (recognizer.py lines 128-186),
parameterised by the raw hits the host matchers return and by the
precomputed results of each registered custom matcher: process the
pattern hits, then the custom-matcher hits, into the position-keyed
dictionary, and return its values sorted by `(start, end)`. -/
def recognizerMatch (defaultScore : ℚ) (matchMap : List (ℕ × MapVal))
    (validators : List (String × (PSpan → Bool)))
    (customs : List (String × List (ℕ × ℕ × ℚ)))
    (hits : List (ℕ × ℕ × ℕ)) : List PSpan :=
  let t1 := hits.foldl (processHit matchMap validators) []
  let t2 := customs.foldl
    (fun t lc => lc.2.foldl (processCustomHit defaultScore validators lc.1) t) t1
  (t2.map Prod.snd).insertionSort posLE

/-- A pattern entry handed to `Recognizer.add_patterns`; a `none` field
embeds a dict key missing from the Python entry. -/
structure PatEntry where
  label : Option String
  pattern : Option PatVal
  score : Option ℚ
  pid : Option String
deriving DecidableEq, Repr

/-- The mutable registration state of a `Recognizer`: the pattern
entries, the match-key map and the token/phrase matcher contents. -/
structure RecState where
  patterns : List PatEntry
  matchMap : List (String × MapVal)
  tokenMatcher : List (String × String)
  phraseMatcher : List (String × String)
deriving DecidableEq, Repr

/-- A raised Python lookup error: `KeyError(key)` carries exactly the
missing key and nothing else. -/
inductive PyKeyErr where
  | keyError : String → PyKeyErr
deriving DecidableEq, Repr

/-- The registration loop of `Recognizer.add_patterns`
(recognizer.py lines 215-238): read the required `label` key (a
missing key raises `KeyError`), resolve id and score defaults,
register the match-key mapping, then dispatch on the required
`pattern` key — a string is queued for the phrase matcher, a list is
added to the token matcher — and finally append the entry to the
pattern list.  The returned queue holds the pending phrase patterns;
an error aborts the loop with the state mutated so far. -/
def addPatternsLoop (defaultScore : ℚ) (st : RecState)
    (queue : List (String × String)) :
    List PatEntry → RecState × List (String × String) × Option PyKeyErr
  | [] => (st, queue, none)
  | e :: rest =>
    match e.label with
    | none => (st, queue, some (.keyError "label"))
    | some pl =>
      let key := pl ++ "_" ++ toString st.patterns.length
      let st1 : RecState :=
        { st with matchMap :=
            st.matchMap ++ [(key, ⟨pl, e.pid.getD "", e.score.getD defaultScore⟩)] }
      match e.pattern with
      | none => (st1, queue, some (.keyError "pattern"))
      | some (.phrase s) =>
        addPatternsLoop defaultScore { st1 with patterns := st1.patterns ++ [e] }
          (queue ++ [(key, s)]) rest
      | some (.tokens b) =>
        addPatternsLoop defaultScore
          { st1 with patterns := st1.patterns ++ [e],
                     tokenMatcher := st1.tokenMatcher ++ [(key, b)] } queue rest

/-- Embedding of `Recognizer.add_patterns`
(recognizer.py lines 209-257): run the registration loop over the
batch; only when it completes without an exception are the queued
phrase patterns tokenized and added to the phrase matcher.  An
exception leaves the partially mutated state behind and drops the
queued phrase patterns. -/
def addPatterns (defaultScore : ℚ) (st : RecState) (entries : List PatEntry) :
    RecState × Option PyKeyErr :=
  match addPatternsLoop defaultScore st [] entries with
  | (st', q, none) => ({ st' with phraseMatcher := st'.phraseMatcher ++ q }, none)
  | (st', _, some e) => (st', some e)

/-! ## Context Enhancer (context_enhancer.py) -/

/-- Configuration of a `ContextEnhancer`: the context window, the
dependency-link fallback toggle, the score parameters and the
ignored sources. -/
structure EnhConfig where
  ctxBefore : ℕ
  ctxAfter : ℕ
  allowDep : Bool
  boost : ℚ
  minEnh : ℚ
  ignoreSources : List String
deriving Repr

/-- The pattern data a raw context match resolves to through
`pattern_map`: originating label and invalidate flag. -/
structure CtxMatchInfo where
  label : String
  invalidate : Bool
deriving DecidableEq, Repr

/-- Embedding of `ContextEnhancer._in_context`
(context_enhancer.py lines 212-234).  The match span is the slice
`doc[start:end]` of the original document, whose bounds spaCy clamps
to the document length; a match starting at or beyond the original
document is an appended context word and always counts.  Otherwise
the match must end inside the before-window or start inside the
after-window, with the dependency-link relation (a host-pipeline
fact, a parameter here) as fallback. -/
def inContext (cfg : EnhConfig) (depLink : ℕ × ℕ → Bool) (docLen : ℕ)
    (span : PSpan) (mStart mEnd : ℕ) : Bool :=
  let ms := min mStart docLen
  let me' := min mEnd docLen
  if docLen ≤ ms then true
  else
    let wStart := span.start - cfg.ctxBefore
    let wEnd := min docLen (span.stop + cfg.ctxAfter)
    if wStart < me' ∧ me' ≤ span.start then true
    else if span.stop ≤ ms ∧ ms < wEnd then true
    else if cfg.allowDep then depLink (ms, me') else false

/-- The match-scanning loop for one candidate span
(context_enhancer.py lines 148-166): walk the raw matches in order;
an in-window match of the span's label either invalidates the span
outright (`none`) or contributes its extended-document text to the
accumulated supportive context. -/
def scanMatches (cfg : EnhConfig) (depLink : ℕ × ℕ → Bool) (docLen : ℕ)
    (ctxTextOf : ℕ × ℕ → String) (span : PSpan) :
    List (CtxMatchInfo × ℕ × ℕ) → List String → Option (List String)
  | [], acc => some acc
  | (info, s, e) :: rest, acc =>
    if inContext cfg depLink docLen span s e ∧ info.label = span.label then
      if info.invalidate then none
      else scanMatches cfg depLink docLen ctxTextOf span rest (acc ++ [ctxTextOf (s, e)])
    else scanMatches cfg depLink docLen ctxTextOf span rest acc

/-- Embedding of the per-span body of `ContextEnhancer.__call__`
(context_enhancer.py lines 134-176) together with
`_create_enhanced_span` (lines 236-251): a span whose source is
ignored or which already carries supportive context passes through
unchanged; an invalidated span is dropped; a span with accumulated
supportive context is rebuilt at the same range and label with score
`min(max(score + boost, min_enhanced_score), 1.0)` and the collected
context (the rebuilt span carries the extension defaults for source
and id). -/
def processSpan (cfg : EnhConfig) (depLink : ℕ × ℕ → Bool) (docLen : ℕ)
    (rawMatches : List (CtxMatchInfo × ℕ × ℕ)) (ctxTextOf : ℕ × ℕ → String)
    (span : PSpan) : Option PSpan :=
  if cfg.ignoreSources.contains span.source then some span
  else if span.ctx.isEmpty = false then some span
  else
    match scanMatches cfg depLink docLen ctxTextOf span rawMatches [] with
    | none => none
    | some [] => some span
    | some ctxList =>
      some { start := span.start, stop := span.stop,
             score := min (max (span.score + cfg.boost) cfg.minEnh) 1,
             label := span.label, ctx := ctxList }

/-- The span-list transformation a `ContextEnhancer` invocation applies
to the configured source collection. -/
def enhancerProcess (cfg : EnhConfig) (depLink : ℕ × ℕ → Bool) (docLen : ℕ)
    (rawMatches : List (CtxMatchInfo × ℕ × ℕ)) (ctxTextOf : ℕ × ℕ → String)
    (spans : List PSpan) : List PSpan :=
  spans.filterMap (processSpan cfg depLink docLen rawMatches ctxTextOf)

/-! ## Entity definitions (entities/entity.py, entities/datetime.py,
entities/date_of_birth.py)

Python pattern dicts are mutable objects shared by reference, and
`Entity.__post_init__` writes `pattern["label"] = self.label` into
them in place.  The embedding makes the object graph explicit: a
store of pattern dicts addressed by allocation index, and entities
holding lists of indices. -/

/-- A pattern or context-pattern dict of an Entity definition: the
`label` key (absent until normalization writes it), the optional
`score` key, the optional `invalidate` key, and the `pattern`
payload itself, carried as inert text. -/
structure PatternDict where
  label : Option String := none
  score : Option ℚ := none
  invalidate : Option Bool := none
  body : String
deriving DecidableEq, Repr

/-- The heap of pattern dict objects, addressed by allocation index. -/
abbrev Store := List PatternDict

/-- Write the entity's label into the dict at one reference,
Python `pattern["label"] = self.label`. -/
def normalizeAt (label : String) (st : Store) (r : ℕ) : Store :=
  match (st : List PatternDict).get? r with
  | none => st
  | some d => (st : List PatternDict).set r { d with label := some label }

/-- `Entity._normalize_patterns`: write the label into every referenced
dict, in place. -/
def normalizeAll (label : String) (st : Store) (refs : List ℕ) : Store :=
  refs.foldl (normalizeAt label) st

/-- An `Entity` dataclass instance: its label and references into the
store for its pattern and context-pattern dicts (`none` embeds the
Python `None` default). -/
structure EntityObj where
  label : String
  patterns : Option (List ℕ)
  context_patterns : Option (List ℕ)
deriving DecidableEq, Repr

/-- `Entity.__post_init__`: normalize the pattern list and the
context-pattern list when they are present and non-empty (Python
truthiness of `self.patterns`). -/
def postInit (st : Store) (e : EntityObj) : Store :=
  let st1 := match e.patterns with
    | some refs => if refs.isEmpty then st else normalizeAll e.label st refs
    | none => st
  match e.context_patterns with
  | some refs => if refs.isEmpty then st1 else normalizeAll e.label st1 refs
  | none => st1

/-- Allocate fresh dict objects on the store, returning their
references. -/
def allocDicts (st : Store) (ds : List PatternDict) : Store × List ℕ :=
  ((st : List PatternDict) ++ ds, List.range' (st : List PatternDict).length ds.length)

/-- Construction of an `Entity(label=…, patterns=…, context_patterns=…)`:
allocate the supplied dicts, build the instance, and run
`__post_init__`. -/
def mkEntity (st : Store) (label : String) (patternDicts ctxDicts : Option (List PatternDict)) :
    Store × EntityObj :=
  let (st1, prefs) := match patternDicts with
    | some ds => let p := allocDicts st ds; (p.1, some p.2)
    | none => (st, none)
  let (st2, crefs) := match ctxDicts with
    | some ds => let p := allocDicts st1 ds; (p.1, some p.2)
    | none => (st1, none)
  let e : EntityObj := ⟨label, prefs, crefs⟩
  (postInit st2 e, e)

/-- Embedding of `Entity.replace` (entities/entity.py lines 30-32),
i.e. `dataclasses.replace`: build a new instance whose non-overridden
fields share the original's references, then run `__post_init__`
on the new instance — which writes the new label into every shared
pattern dict. -/
def entityReplace (st : Store) (e : EntityObj) (newLabel : Option String)
    (newCtxDicts : Option (List PatternDict)) : Store × EntityObj :=
  let (st1, crefs) := match newCtxDicts with
    | some ds => let p := allocDicts st ds; (p.1, some p.2)
    | none => (st, e.context_patterns)
  let e' : EntityObj := ⟨newLabel.getD e.label, e.patterns, crefs⟩
  (postInit st1 e', e')

/-- The fourteen pattern dicts of the DATETIME entity
(entities/datetime.py lines 5-60); their match payloads are inert
here and carried as descriptive text, the scores are the source's. -/
def dtPatternDicts : List PatternDict := [
  { score := some (mkRat 8 10), body := "REGEX ISO-8601 timestamp" },
  { score := some (mkRat 7 10), body := "SHAPE dddd-dd-dd" },
  { score := some (mkRat 6 10), body := "SHAPE dd-dd-dddd" },
  { score := some (mkRat 6 10), body := "SHAPE dd/dd/dddd" },
  { score := some (mkRat 6 10), body := "SHAPE dd.dd.dddd" },
  { score := some (mkRat 5 10), body := "SHAPE dd-dd-dd" },
  { score := some (mkRat 5 10), body := "SHAPE dd/dd/dd" },
  { score := some (mkRat 5 10), body := "SHAPE dd.dd.dd" },
  { score := some (mkRat 7 10), body := "day, Dutch month name, 2-or-4-digit year" },
  { score := some (mkRat 7 10), body := "English month name, day, optional comma, year" },
  { score := some (mkRat 7 10), body := "day, English month name, year" },
  { score := some (mkRat 8 10), body := "SHAPE dddd-dd-dd then dd:dd:dd" },
  { score := some (mkRat 4 10), body := "SHAPE dd:dd" },
  { score := some (mkRat 5 10), body := "SHAPE dd:dd:dd" }]

/-- The twelve context-pattern dicts of the DATETIME entity
(entities/datetime.py lines 61-76): three supportive, nine
invalidating birth-date ones. -/
def dtCtxDicts : List PatternDict := [
  { body := "LEMMA datum" },
  { body := "LEMMA date" },
  { body := "LEMMA in tijd tijdstip time timestamp" },
  { invalidate := some true, body := "LEMMA in geboortedatum geboorte" },
  { invalidate := some true, body := "LOWER FUZZY geboortedatum" },
  { invalidate := some true, body := "LEMMA geboren" },
  { invalidate := some true, body := "LEMMA datum van geboorte" },
  { invalidate := some true, body := "TEXT in geb. Geb." },
  { invalidate := some true, body := "LEMMA in birthday birthdate dob" },
  { invalidate := some true, body := "LEMMA date of birth" },
  { invalidate := some true, body := "LEMMA born" },
  { invalidate := some true, body := "TEXT in DOB D.O.B." }]

/-- The nine supportive context-pattern dicts DATE_OF_BIRTH supplies as
override (entities/date_of_birth.py lines 5-18). -/
def dobCtxDicts : List PatternDict := [
  { body := "LEMMA in geboortedatum geboorte" },
  { body := "LOWER FUZZY geboortedatum" },
  { body := "LEMMA geboren" },
  { body := "LEMMA datum van geboorte" },
  { body := "TEXT in geb. Geb." },
  { body := "LEMMA in birthday birthdate dob" },
  { body := "LEMMA date of birth" },
  { body := "LEMMA born" },
  { body := "TEXT in DOB D.O.B." }]

/-- Construction of the DATETIME entity on an empty store. -/
def datetimeBuild : Store × EntityObj :=
  mkEntity [] "DATETIME" (some dtPatternDicts) (some dtCtxDicts)

/-- The derivation `DATE_OF_BIRTH = DATETIME.replace(label=…,
context_patterns=…)` of entities/date_of_birth.py. -/
def dobBuild : Store × EntityObj :=
  entityReplace datetimeBuild.1 datetimeBuild.2 (some "DATE_OF_BIRTH") (some dobCtxDicts)

/-! ## Concrete inputs used by counterexamples and witnesses -/

/-- Filter counterexample, outer span: `[0, 2)` scored `0.9`. -/
def cexA : PSpan := { start := 0, stop := 2, score := mkRat 9 10, label := "A" }

/-- Filter counterexample, middle span: `[1, 3)` scored `0.8`. -/
def cexB : PSpan := { start := 1, stop := 3, score := mkRat 8 10, label := "B" }

/-- Filter counterexample, right span: `[2, 4)` scored `0.7`. -/
def cexC : PSpan := { start := 2, stop := 4, score := mkRat 7 10, label := "C" }

/-- Two mutually overlapping spans for the filter witness. -/
def c2wA : PSpan := { start := 0, stop := 2, score := mkRat 8 10, label := "P" }

/-- Second span of the filter witness pair. -/
def c2wB : PSpan := { start := 1, stop := 3, score := mkRat 9 10, label := "Q" }

/-- A host tokenizer stub splitting the surrogate `"X Y"` into a token
with internal trailing whitespace followed by a final token. -/
def cTokenize5 : String → List Token := fun s =>
  if s = "X Y" then [⟨"X", true⟩, ⟨"Y", false⟩] else [⟨s, false⟩]

/-- Rule table mapping label `L` to the two-word surrogate `"X Y"`. -/
def cReps5 : List (String × Rule) := [("L", Rule.str "X Y")]

/-- A three-token document body shared by several scenarios. -/
def cToks3 : List Token := [⟨"a", true⟩, ⟨"b", true⟩, ⟨"c", false⟩]

/-- The span covering the middle token of `cToks3`, labelled `L`. -/
def cSp5 : PSpan := { start := 1, stop := 2, score := 1, label := "L" }

/-- A three-token document whose middle token is the entity `L`. -/
def cDoc5 : Doc := ⟨cToks3, [cSp5], []⟩

/-- A host tokenizer stub on which every text, in particular the empty
replacement, yields no tokens. -/
def cTokenizeE : String → List Token := fun _ => []

/-- Rule table mapping label `E` to the empty string (deletion). -/
def cRepsE : List (String × Rule) := [("E", Rule.str "")]

/-- The span covering the middle token of `cToks3`, labelled `E`. -/
def cSpE : PSpan := { start := 1, stop := 2, score := 1, label := "E" }

/-- A host tokenizer stub returning any replacement text as one token. -/
def cTokenize1 : String → List Token := fun s => [⟨s, false⟩]

/-- A two-token document whose first token is the entity `L`. -/
def cDoc1 : Doc :=
  ⟨[⟨"a", true⟩, ⟨"b", false⟩], [{ start := 0, stop := 1, score := 1, label := "L" }], []⟩

/-- Document state for the anonymizer frame witness. -/
def cSt1 : DocState := ⟨cDoc1, none⟩

/-- The derived document the anonymizer produces for `cDoc1` with no
registered rules: the default surrogate `[L]` inheriting the
original first token's trailing space. -/
def cAnon1 : Doc :=
  ⟨[⟨"[L]", true⟩, ⟨"b", false⟩], [{ start := 0, stop := 1, label := "L" }], []⟩

/-- The post-call document state for the anonymizer frame witness. -/
def cSt1Out : DocState := ⟨cDoc1, some cAnon1⟩

/-- The default Context Enhancer configuration: window `(5, 2)`,
dependency fallback on, boost `0.35`, floor `0.4`, ignored source
`"unknown"`. -/
def cCfg : EnhConfig := ⟨5, 2, true, mkRat 35 100, mkRat 4 10, ["unknown"]⟩

/-- A candidate span that already carries supportive context. -/
def cSpanCtx : PSpan :=
  { start := 0, stop := 1, score := mkRat 9 10, label := "L",
    source := "recognizer", ctx := ["bsn"], spanId := "" }

/-- The empty recognizer registration state. -/
def emptyRecState : RecState := ⟨[], [], [], []⟩

/-- A well-formed token-pattern entry for the registration batch. -/
def c9Good1 : PatEntry := ⟨some "A", some (.tokens "T1"), some (mkRat 9 10), none⟩

/-- A well-formed phrase-pattern entry for the registration batch. -/
def c9Good2 : PatEntry := ⟨some "A", some (.phrase "hello"), none, some "p2"⟩

/-- A malformed entry whose required `pattern` key is missing. -/
def c9Bad : PatEntry := ⟨some "B", none, none, none⟩

/-! ## Theorems -/

/-- Python's `all(only_digits[0] == c for c in only_digits)` holds
exactly when the list is constant. -/
theorem allSame_iff (l : List Char) :
    (l.all (fun c => l.head? == some c) = true) ↔ ∀ a ∈ l, ∀ b ∈ l, a = b := by
  cases l with
  | nil => simp
  | cons h t =>
    simp only [List.all_eq_true, List.head?_cons, beq_iff_eq, Option.some.injEq]
    constructor
    · intro H a ha b hb
      exact (H a ha).symm.trans (H b hb)
    · intro H c hc
      exact H h (List.mem_cons_self h t) c hc

/-- C3. The eleven-test (elf-proef) validator accepts exactly when the
stripped digits are not all identical, exactly 9 digits remain after
the conditional leading-zero prepend, and the weighted sum with
weights `[9, 8, 7, 6, 5, 4, 3, 2, -1]` is divisible by 11; it accepts
`"376174316"`, rejects `"111111111"`, and rejects any string whose
stripped digit count is neither 8 nor 9. -/
theorem elf_proef_correct :
    (∀ s : String, elf_proef s = true ↔ elfProefSpec s) ∧
    elf_proef "376174316" = true ∧
    elf_proef "111111111" = false ∧
    (∀ s : String, (s.data.filter Char.isDigit).length ≠ 8 →
      (s.data.filter Char.isDigit).length ≠ 9 → elf_proef s = false) := by
  refine ⟨?_, by decide, by decide, ?_⟩
  · intro s
    simp only [elf_proef, elfProefSpec]
    set ds := s.data.filter Char.isDigit with hds
    by_cases hall : ds.all (fun c => ds.head? == some c) = true
    · rw [if_pos hall]
      simp only [Bool.false_eq_true, false_iff]
      rintro ⟨⟨a, ha, b, hb, hab⟩, -⟩
      exact hab ((allSame_iff ds).mp hall a ha b hb)
    · rw [if_neg hall]
      have hne : ∃ a ∈ ds, ∃ b ∈ ds, a ≠ b := by
        by_contra hno
        push_neg at hno
        exact hall ((allSame_iff ds).mpr hno)
      by_cases h8 : ds.length = 8
      · rw [if_pos h8]
        have hc : (ds.length == 8) = true := by simp [h8]
        rw [hc]
        have hl : ('0' :: ds).length = 9 := by simp [h8]
        simp only [if_true]
        rw [hl]
        simp [hne]
      · rw [if_neg h8]
        have hc : (ds.length == 8) = false := by simp [h8]
        rw [hc]
        simp only [Bool.false_eq_true, if_false]
        by_cases h9 : ds.length = 9
        · rw [h9]
          simp [hne]
        · simp [h9, hne]
  · intro s h8 h9
    simp only [elf_proef]
    set ds := s.data.filter Char.isDigit with hds
    by_cases hall : ds.all (fun c => ds.head? == some c) = true
    · rw [if_pos hall]
    · rw [if_neg hall]
      simp [h8, h9]

/-- Witness for the eleven-test theorem: the string `"12"` has neither
8 nor 9 digits and is rejected. -/
theorem elf_proef_correct_witness :
    ("12".data.filter Char.isDigit).length ≠ 8 ∧
    ("12".data.filter Char.isDigit).length ≠ 9 ∧ elf_proef "12" = false :=
  ⟨by decide, by decide, elf_proef_correct.2.2.2 "12" (by decide) (by decide)⟩

/-- Every key compares less-or-equal to itself. -/
theorem keyLE_refl (k : ℚ × ℕ × ℤ) : keyLE k k = true := by simp [keyLE]

/-- The lexicographic key order is total. -/
theorem keyLE_total (k l : ℚ × ℕ × ℤ) : keyLE k l = true ∨ keyLE l k = true := by
  simp only [keyLE, decide_eq_true_eq]
  rcases lt_trichotomy k.1 l.1 with h | h | h
  · exact Or.inl (Or.inl h)
  · rcases lt_trichotomy k.2.1 l.2.1 with h2 | h2 | h2
    · exact Or.inl (Or.inr ⟨h, Or.inl h2⟩)
    · rcases le_total k.2.2 l.2.2 with h3 | h3
      · exact Or.inl (Or.inr ⟨h, Or.inr ⟨h2, h3⟩⟩)
      · exact Or.inr (Or.inr ⟨h.symm, Or.inr ⟨h2.symm, h3⟩⟩)
    · exact Or.inr (Or.inr ⟨h.symm, Or.inl h2⟩)
  · exact Or.inr (Or.inl h)

/-- The lexicographic key order is transitive. -/
theorem keyLE_trans {k l m : ℚ × ℕ × ℤ} (h1 : keyLE k l = true)
    (h2 : keyLE l m = true) : keyLE k m = true := by
  simp only [keyLE, decide_eq_true_eq] at h1 h2 ⊢
  rcases h1 with h1 | ⟨e1, h1'⟩
  · rcases h2 with h2 | ⟨e2, h2'⟩
    · exact Or.inl (h1.trans h2)
    · exact Or.inl (lt_of_lt_of_eq h1 e2)
  · rcases h2 with h2 | ⟨e2, h2'⟩
    · exact Or.inl (lt_of_eq_of_lt e1 h2)
    · refine Or.inr ⟨e1.trans e2, ?_⟩
      rcases h1' with h1' | ⟨f1, h1''⟩
      · rcases h2' with h2' | ⟨f2, h2''⟩
        · exact Or.inl (h1'.trans h2')
        · exact Or.inl (lt_of_lt_of_eq h1' f2)
      · rcases h2' with h2' | ⟨f2, h2''⟩
        · exact Or.inl (lt_of_eq_of_lt f1 h2')
        · exact Or.inr ⟨f1.trans f2, le_trans h1'' h2''⟩

instance : IsTotal PSpan descLE := ⟨fun a b => keyLE_total (spanKey b) (spanKey a)⟩

instance : IsTrans PSpan descLE := ⟨fun _ _ _ h1 h2 => keyLE_trans h2 h1⟩

instance : IsTotal PSpan startLE := ⟨fun a b => Nat.le_total a.start b.start⟩

instance : IsTrans PSpan startLE := ⟨fun _ _ _ h1 h2 => Nat.le_trans h1 h2⟩

/-- Sharing no token position is a symmetric relation. -/
theorem spanDisjoint_symm : Symmetric spanDisjoint := by
  intro a b h
  unfold spanDisjoint at h ⊢
  rwa [Finset.inter_comm]

/-- A span list in which every span conflicts with the claimed set
yields no acceptance. -/
theorem greedyAccept_blocked (l : List PSpan) (seen : Finset ℕ)
    (h : ∀ s ∈ l, ∃ i ∈ spanRange s, i ∈ seen) : greedyAccept l seen = [] := by
  induction l with
  | nil => rfl
  | cons s rest ih =>
    simp only [greedyAccept]
    obtain ⟨i, hi, hm⟩ := h s (List.mem_cons_self s rest)
    rw [if_neg (fun hall => hall i hi hm)]
    exact ih fun t ht => h t (List.mem_cons_of_mem s ht)

/-- The greedy claim loop produces pairwise disjoint spans, each also
avoiding all initially claimed positions. -/
theorem greedyAccept_invariant (l : List PSpan) :
    ∀ seen : Finset ℕ, (greedyAccept l seen).Pairwise spanDisjoint ∧
      ∀ s ∈ greedyAccept l seen, ∀ i ∈ spanRange s, i ∉ seen := by
  induction l with
  | nil => intro seen; simp [greedyAccept]
  | cons s rest ih =>
    intro seen
    simp only [greedyAccept]
    by_cases hc : ∀ i ∈ spanRange s, i ∉ seen
    · rw [if_pos hc]
      obtain ⟨ihp, ihd⟩ := ih (seen ∪ spanRange s)
      constructor
      · refine List.Pairwise.cons ?_ ihp
        intro t ht
        unfold spanDisjoint
        rw [Finset.eq_empty_iff_forall_not_mem]
        intro i hi
        rw [Finset.mem_inter] at hi
        exact ihd t ht i hi.2 (Finset.mem_union_right seen hi.1)
      · intro t ht
        rcases List.mem_cons.mp ht with rfl | ht'
        · exact hc
        · intro i hit hiseen
          exact ihd t ht' i hit (Finset.mem_union_left _ hiseen)
    · rw [if_neg hc]
      exact ih seen

/-- C2, counterexample.  The claim says that within any cluster of
mutually overlapping input spans the kept span is the one with the
highest score.  Here `cexB` (score 0.8) and `cexC` (score 0.7)
overlap — a mutually overlapping cluster — yet the filter, run on
`[cexA, cexB, cexC]`, drops the higher-scored `cexB` (its tokens
were claimed by `cexA`, score 0.9) and keeps the lower-scored
`cexC`. -/
theorem filter_cluster_counterexample :
    overlapsSpans cexB cexC ∧ cexC.score < cexB.score ∧
    cexB ∉ highest_confidence_filter [cexA, cexB, cexC] ∧
    cexC ∈ highest_confidence_filter [cexA, cexB, cexC] := by
  refine ⟨⟨2, ?_, ?_⟩, by norm_num [cexB, cexC], ?_, ?_⟩ <;> decide

/-- C2, amended.  The highest-confidence filter always returns pairwise
position-disjoint spans sorted by ascending start; and when the
whole input is one mutually overlapping cluster, exactly one span is
kept — the one whose `(score, length, -start)` key is maximal, i.e.
highest score with ties broken by greater length then earlier
start. -/
theorem filter_amended (spans : List PSpan) :
    (highest_confidence_filter spans).Pairwise spanDisjoint ∧
    (highest_confidence_filter spans).Sorted startLE ∧
    (spans ≠ [] → (∀ a ∈ spans, ∀ b ∈ spans, overlapsSpans a b) →
      ∃ m, highest_confidence_filter spans = [m] ∧ m ∈ spans ∧
        ∀ b ∈ spans, keyLE (spanKey b) (spanKey m) = true) := by
  refine ⟨?_, ?_, ?_⟩
  · unfold highest_confidence_filter
    exact ((List.perm_insertionSort startLE _).pairwise_iff
      (fun hxy => spanDisjoint_symm hxy)).mpr
      ((greedyAccept_invariant (spans.insertionSort descLE) ∅).1)
  · unfold highest_confidence_filter
    exact List.sorted_insertionSort startLE _
  · intro hne hclq
    have hperm : (spans.insertionSort descLE).Perm spans := List.perm_insertionSort descLE spans
    cases hs : spans.insertionSort descLE with
    | nil =>
      rw [hs] at hperm
      exact absurd hperm.nil_eq.symm hne
    | cons m rest =>
      rw [hs] at hperm
      have hmem : ∀ x ∈ m :: rest, x ∈ spans := fun x hx => hperm.mem_iff.mp hx
      have hm : m ∈ spans := hmem m (List.mem_cons_self m rest)
      have hsorted := List.sorted_insertionSort descLE spans
      rw [hs] at hsorted
      have hrest : ∀ b ∈ rest, descLE m b := (List.sorted_cons.mp hsorted).1
      have hblock : ∀ t ∈ rest, ∃ i ∈ spanRange t, i ∈ spanRange m :=
        fun t ht => hclq t (hmem t (List.mem_cons_of_mem m ht)) m hm
      have hgreedy : greedyAccept (m :: rest) ∅ = [m] := by
        simp only [greedyAccept]
        rw [if_pos (fun i _ => Finset.not_mem_empty i), Finset.empty_union,
          greedyAccept_blocked rest (spanRange m) hblock]
      refine ⟨m, ?_, hm, ?_⟩
      · unfold highest_confidence_filter
        rw [hs, hgreedy]
        rfl
      · intro b hb
        rcases List.mem_cons.mp (hperm.mem_iff.mpr hb) with rfl | hbr
        · exact keyLE_refl _
        · exact hrest b hbr

/-- Witness for the amended filter theorem: on the two-span mutually
overlapping cluster `[c2wA, c2wB]` the filter keeps exactly the
maximal-key span. -/
theorem filter_amended_witness :
    [c2wA, c2wB] ≠ ([] : List PSpan) ∧
    (∀ a ∈ [c2wA, c2wB], ∀ b ∈ [c2wA, c2wB], overlapsSpans a b) ∧
    ∃ m, highest_confidence_filter [c2wA, c2wB] = [m] ∧ m ∈ [c2wA, c2wB] ∧
      ∀ b ∈ [c2wA, c2wB], keyLE (spanKey b) (spanKey m) = true :=
  ⟨by decide, by decide, (filter_amended [c2wA, c2wB]).2.2 (by decide) (by decide)⟩

/-- The reconstruction walk stops at the end of the document. -/
theorem anonLoop_stop (tk : String → List Token) (reps : List (String × Rule))
    (docToks : List Token) (i : ℕ) (spans : List PSpan) (acc : List Token)
    (info : List (ℕ × ℕ × String)) (h : ¬ i < docToks.length) :
    anonLoop tk reps docToks i spans acc info = .ok (acc, info) := by
  rw [anonLoop]
  simp [h]

/-- One copy step of the reconstruction walk, before the next pending
span. -/
theorem anonLoop_copy_one (tk : String → List Token) (reps : List (String × Rule))
    (docToks : List Token) (i : ℕ) (sp : PSpan) (rest : List PSpan)
    (acc : List Token) (info : List (ℕ × ℕ × String))
    (hi : i < docToks.length) (hs : i < sp.start) :
    anonLoop tk reps docToks i (sp :: rest) acc info =
      anonLoop tk reps docToks (i + 1) (sp :: rest) (acc ++ [docToks[i]]) info := by
  rw [anonLoop]
  simp [hi, hs]

/-- One copy step of the reconstruction walk with no pending span. -/
theorem anonLoop_copy_nil (tk : String → List Token) (reps : List (String × Rule))
    (docToks : List Token) (i : ℕ) (acc : List Token)
    (info : List (ℕ × ℕ × String)) (hi : i < docToks.length) :
    anonLoop tk reps docToks i [] acc info =
      anonLoop tk reps docToks (i + 1) [] (acc ++ [docToks[i]]) info := by
  rw [anonLoop]
  simp [hi]

/-- The replacement step of the reconstruction walk: on reaching the
pending span, the resolved replacement is tokenized and appended,
the last emitted flag is overwritten with the original span's final
flag, the output range is recorded, and the walk continues past the
span. -/
theorem anonLoop_hit (tk : String → List Token) (reps : List (String × Rule))
    (docToks : List Token) (i : ℕ) (sp : PSpan) (rest : List PSpan)
    (acc : List Token) (info : List (ℕ × ℕ × String)) (repText : String)
    (ha : applyReplacement reps sp.label (spanText docToks sp) = .ok repText)
    (hi : i < docToks.length) (hs : ¬ i < sp.start) :
    anonLoop tk reps docToks i (sp :: rest) acc info =
      anonLoop tk reps docToks sp.stop rest
        (setLastWs (acc ++ tk repText) (origLastWs docToks sp))
        (info ++ [(acc.length, acc.length + (tk repText).length, sp.label)]) := by
  rw [anonLoop]
  simp [hi, hs, ha]

/-- A failing replacement aborts the walk with the raised error. -/
theorem anonLoop_hit_error (tk : String → List Token) (reps : List (String × Rule))
    (docToks : List Token) (i : ℕ) (sp : PSpan) (rest : List PSpan)
    (acc : List Token) (info : List (ℕ × ℕ × String)) (e : PyErr)
    (ha : applyReplacement reps sp.label (spanText docToks sp) = .error e)
    (hi : i < docToks.length) (hs : ¬ i < sp.start) :
    anonLoop tk reps docToks i (sp :: rest) acc info = .error e := by
  rw [anonLoop]
  simp [hi, hs, ha]

/-- With no pending spans the walk copies the rest of the document
verbatim. -/
theorem anonLoop_no_spans (tk : String → List Token) (reps : List (String × Rule))
    (docToks : List Token) :
    ∀ n i acc info, docToks.length - i ≤ n →
      anonLoop tk reps docToks i [] acc info = .ok (acc ++ docToks.drop i, info) := by
  intro n
  induction n with
  | zero =>
    intro i acc info h
    have hi : ¬ i < docToks.length := by omega
    rw [anonLoop_stop tk reps docToks i [] acc info hi]
    rw [List.drop_eq_nil_of_le (by omega), List.append_nil]
  | succ n ih =>
    intro i acc info h
    by_cases hi : i < docToks.length
    · rw [anonLoop_copy_nil tk reps docToks i acc info hi, ih (i + 1) _ _ (by omega)]
      rw [List.append_assoc, List.singleton_append, ← List.drop_eq_getElem_cons hi]
    · rw [anonLoop_stop tk reps docToks i [] acc info hi]
      rw [List.drop_eq_nil_of_le (by omega), List.append_nil]

/-- The walk copies all tokens up to the next pending span's start. -/
theorem anonLoop_copy_upto (tk : String → List Token) (reps : List (String × Rule))
    (docToks : List Token) (sp : PSpan) (rest : List PSpan) :
    ∀ n i acc info, sp.start - i ≤ n → i ≤ sp.start → sp.start ≤ docToks.length →
      anonLoop tk reps docToks i (sp :: rest) acc info =
        anonLoop tk reps docToks sp.start (sp :: rest)
          (acc ++ (docToks.drop i).take (sp.start - i)) info := by
  intro n
  induction n with
  | zero =>
    intro i acc info h h1 h2
    have : i = sp.start := by omega
    subst this
    simp
  | succ n ih =>
    intro i acc info h h1 h2
    by_cases he : i = sp.start
    · subst he
      simp
    · have hs : i < sp.start := by omega
      have hi : i < docToks.length := by omega
      rw [anonLoop_copy_one tk reps docToks i sp rest acc info hi hs,
        ih (i + 1) _ _ (by omega) (by omega) h2]
      have htake : (docToks.drop i).take (sp.start - i) =
          docToks[i] :: (docToks.drop (i + 1)).take (sp.start - (i + 1)) := by
        rw [List.drop_eq_getElem_cons hi]
        have : sp.start - i = (sp.start - (i + 1)) + 1 := by omega
        rw [this, List.take_succ_cons]
      rw [htake, List.append_assoc, List.singleton_append]

/-- Overwriting the final trailing-whitespace flag of a token run that
ends in a known last token. -/
theorem setLastWs_append_singleton (ts : List Token) (t : Token) (b : Bool) :
    setLastWs (ts ++ [t]) b = ts ++ [{ t with ws := b }] := by
  induction ts with
  | nil => rfl
  | cons u us ih =>
    cases us with
    | nil => rfl
    | cons v vs =>
      simp only [List.cons_append, setLastWs, List.append_eq] at ih ⊢
      rw [ih]

/-- Full evaluation of the derived document for a document whose only
selected span has a replacement tokenizing to at least one token:
copies before the span, the replacement tokens with the last flag
overwritten, copies after the span, and one recorded span at the
replacement's output range. -/
theorem makeAnonymizedDoc_single_span (tk : String → List Token)
    (reps : List (String × Rule)) (key : String) (toks : List Token) (sp : PSpan)
    (repText : String) (r0 : List Token) (rlast : Token)
    (ha : applyReplacement reps sp.label (spanText toks sp) = .ok repText)
    (htk : tk repText = r0 ++ [rlast])
    (hss : sp.start < sp.stop) (hsl : sp.stop ≤ toks.length) :
    makeAnonymizedDoc tk reps "ent" key ⟨toks, [sp], []⟩ =
      .ok ⟨toks.take sp.start ++ r0 ++ [{ rlast with ws := origLastWs toks sp }] ++
          toks.drop sp.stop,
        [{ start := sp.start, stop := sp.start + (r0.length + 1), label := sp.label }],
        []⟩ := by
  have hrun : anonLoop tk reps toks 0 [sp] [] [] =
      .ok (toks.take sp.start ++ r0 ++ [{ rlast with ws := origLastWs toks sp }] ++
          toks.drop sp.stop,
        [(sp.start, sp.start + (r0.length + 1), sp.label)]) := by
    rw [anonLoop_copy_upto tk reps toks sp [] sp.start 0 [] []
      (by omega) (by omega) (by omega)]
    simp only [List.drop_zero, Nat.sub_zero, List.nil_append]
    rw [anonLoop_hit tk reps toks sp.start sp [] _ _ repText ha
      (by omega) (by omega), htk]
    rw [← List.append_assoc, setLastWs_append_singleton]
    rw [anonLoop_no_spans tk reps toks toks.length sp.stop _ _ (by omega)]
    have hlen : (toks.take sp.start).length = sp.start := by
      rw [List.length_take]
      omega
    rw [hlen]
    simp [List.append_assoc]
  unfold makeAnonymizedDoc
  have hsens : (getSelectedSpans "ent" key ⟨toks, [sp], []⟩).insertionSort startLE
      = [sp] := rfl
  rw [hsens]
  simp only [List.isEmpty_cons, Bool.false_eq_true, if_false]
  rw [hrun]
  simp

/-- C1.  An Anonymizer invocation returns the input document itself,
with tokens, whitespace flags, primary entity collection and
auxiliary span collections unchanged; only the anonymized-copy slot
changes, and it is set to the newly derived document. -/
theorem anonymizer_preserves_input (tokenize : String → List Token)
    (reps : List (String × Rule)) (style spansKey : String) (st st' : DocState)
    (h : anonymizerCall tokenize reps style spansKey st = .ok st') :
    st'.doc = st.doc ∧ st'.doc.tokens = st.doc.tokens ∧
    st'.doc.ents = st.doc.ents ∧ st'.doc.spansMap = st.doc.spansMap ∧
    ∃ derived, makeAnonymizedDoc tokenize reps style spansKey st.doc = .ok derived ∧
      st'.anonymized = some derived := by
  unfold anonymizerCall at h
  cases hm : makeAnonymizedDoc tokenize reps style spansKey st.doc with
  | error e =>
    rw [hm] at h
    exact absurd h (by simp)
  | ok d =>
    rw [hm] at h
    simp only [Except.ok.injEq] at h
    subst h
    exact ⟨rfl, rfl, rfl, rfl, d, rfl, rfl⟩

/-- Witness for the anonymizer frame theorem at a concrete document. -/
theorem anonymizer_preserves_input_witness :
    anonymizerCall cTokenize1 [] "ent" "sc" cSt1 = .ok cSt1Out ∧
    (cSt1Out.doc = cSt1.doc ∧ cSt1Out.doc.tokens = cSt1.doc.tokens ∧
     cSt1Out.doc.ents = cSt1.doc.ents ∧ cSt1Out.doc.spansMap = cSt1.doc.spansMap ∧
     ∃ derived, makeAnonymizedDoc cTokenize1 [] "ent" "sc" cSt1.doc = .ok derived ∧
       cSt1Out.anonymized = some derived) := by
  have hm : makeAnonymizedDoc cTokenize1 [] "ent" "sc" cSt1.doc = .ok cAnon1 :=
    makeAnonymizedDoc_single_span cTokenize1 [] "sc" [⟨"a", true⟩, ⟨"b", false⟩]
      { start := 0, stop := 1, score := 1, label := "L" } "[L]" [] ⟨"[L]", false⟩
      rfl rfl (by decide) (by decide)
  have hcall : anonymizerCall cTokenize1 [] "ent" "sc" cSt1 = .ok cSt1Out := by
    unfold anonymizerCall
    rw [hm]
    rfl
  exact ⟨hcall, anonymizer_preserves_input cTokenize1 [] "ent" "sc" cSt1 cSt1Out hcall⟩

/-- C4.  Replacement-rule resolution: no rule gives the upper-cased
bracketed label (`persoon` gives `[PERSOON]`); a string rule is used
verbatim, an empty-string rule contributing no token to the derived
document; a callable of effective arity 0 (a leading `self`
parameter excluded) is invoked with no arguments, arity 1 with the
span's original text, and any other arity fails with a `TypeError`
naming the label. -/
theorem replacement_resolution :
    (∀ (reps : List (String × Rule)) (label text : String),
      reps.lookup label = none →
      applyReplacement reps label text = .ok ("[" ++ pyUpper label ++ "]")) ∧
    (∀ text : String, applyReplacement [] "persoon" text = .ok "[PERSOON]") ∧
    (∀ (reps : List (String × Rule)) (label text s : String),
      reps.lookup label = some (.str s) → applyReplacement reps label text = .ok s) ∧
    (∀ (tk : String → List Token) (reps : List (String × Rule))
      (docToks : List Token) (i : ℕ) (sp : PSpan) (rest : List PSpan)
      (acc : List Token) (info : List (ℕ × ℕ × String)),
      tk "" = [] → reps.lookup sp.label = some (.str "") →
      i < docToks.length → ¬ i < sp.start →
      anonLoop tk reps docToks i (sp :: rest) acc info =
        anonLoop tk reps docToks sp.stop rest
          (setLastWs acc (origLastWs docToks sp))
          (info ++ [(acc.length, acc.length, sp.label)])) ∧
    (∀ (reps : List (String × Rule)) (label text : String) (names : List String)
      (f : List String → String),
      reps.lookup label = some (.call names f) → dropSelf names = [] →
      applyReplacement reps label text = .ok (f [])) ∧
    (∀ (reps : List (String × Rule)) (label text : String) (names : List String)
      (f : List String → String) (p : String),
      reps.lookup label = some (.call names f) → dropSelf names = [p] →
      applyReplacement reps label text = .ok (f [text])) ∧
    (∀ (reps : List (String × Rule)) (label text : String) (names : List String)
      (f : List String → String),
      reps.lookup label = some (.call names f) → 2 ≤ (dropSelf names).length →
      applyReplacement reps label text = .error (.typeError label)) := by
  refine ⟨?_, ?_, ?_, ?_, ?_, ?_, ?_⟩
  · intro reps label text h
    simp [applyReplacement, h]
  · intro text
    rfl
  · intro reps label text s h
    simp [applyReplacement, h]
  · intro tk reps docToks i sp rest acc info h0 hlook hi hs
    have ha : applyReplacement reps sp.label (spanText docToks sp) = .ok "" := by
      simp [applyReplacement, hlook]
    rw [anonLoop_hit tk reps docToks i sp rest acc info "" ha hi hs, h0]
    simp
  · intro reps label text names f h hdrop
    simp [applyReplacement, h, hdrop]
  · intro reps label text names f p h hdrop
    simp [applyReplacement, h, hdrop]
  · intro reps label text names f h hlen
    have h1 : (dropSelf names).isEmpty = false := by
      cases hd : dropSelf names with
      | nil => rw [hd] at hlen; simp at hlen
      | cons a t => rfl
    have h2 : ¬ (dropSelf names).length = 1 := by omega
    simp [applyReplacement, h, h1, h2]

/-- Witness for the replacement-resolution theorem: the default
surrogate, the fixed string, both callable arities and the arity
error, each at a concrete rule table. -/
theorem replacement_resolution_witness :
    applyReplacement [] "persoon" "Anna" = .ok "[PERSOON]" ∧
    applyReplacement [("e", Rule.str "[EMAIL]")] "e" "x" = .ok "[EMAIL]" ∧
    applyReplacement [("z", Rule.call [] (fun _ => "gen"))] "z" "x" = .ok "gen" ∧
    applyReplacement [("r", Rule.call ["txt"] (fun args => String.join args))] "r" "x" =
      .ok (String.join ["x"]) ∧
    applyReplacement [("w", Rule.call ["a", "b"] (fun _ => "y"))] "w" "x" =
      .error (.typeError "w") :=
  ⟨replacement_resolution.2.1 "Anna",
   replacement_resolution.2.2.1 [("e", Rule.str "[EMAIL]")] "e" "x" "[EMAIL]" rfl,
   replacement_resolution.2.2.2.2.1 [("z", Rule.call [] (fun _ => "gen"))] "z" "x"
     [] (fun _ => "gen") rfl rfl,
   replacement_resolution.2.2.2.2.2.1
     [("r", Rule.call ["txt"] (fun args => String.join args))] "r" "x"
     ["txt"] (fun args => String.join args) "txt" rfl rfl,
   replacement_resolution.2.2.2.2.2.2 [("w", Rule.call ["a", "b"] (fun _ => "y"))]
     "w" "x" ["a", "b"] (fun _ => "y") rfl (by decide)⟩

/-- C5, counterexample.  The claim says every appended replacement token
except the last has its trailing-whitespace flag forced to false.
Here the surrogate `"X Y"` tokenizes to `X` carrying a trailing
space (flag `true`) and `Y`; the reconstruction keeps the
tokenizer's flag on the non-last token `X` — the derived document's
second token is `⟨"X", true⟩`, not `⟨"X", false⟩` as the claim
requires — and only the last token `Y` has its flag overwritten
(with the original span's final flag, `true`). -/
theorem replacement_ws_counterexample :
    cTokenize5 "X Y" = [⟨"X", true⟩, ⟨"Y", false⟩] ∧
    makeAnonymizedDoc cTokenize5 cReps5 "ent" "sc" cDoc5 =
      .ok ⟨[⟨"a", true⟩, ⟨"X", true⟩, ⟨"Y", true⟩, ⟨"c", false⟩],
        [{ start := 1, stop := 3, label := "L" }], []⟩ :=
  ⟨rfl,
   makeAnonymizedDoc_single_span cTokenize5 cReps5 "sc" cToks3 cSp5 "X Y"
     [⟨"X", true⟩] ⟨"Y", false⟩ rfl rfl (by decide) (by decide)⟩

/-- C5, amended.  In the reconstruction, the appended replacement
tokens keep the trailing-whitespace flags the tokenizer assigned
them, except the last appended token, whose flag is overwritten with
the trailing-whitespace flag of the original span's final token. -/
theorem replacement_ws_amended (tk : String → List Token)
    (reps : List (String × Rule)) (docToks : List Token) (i : ℕ) (sp : PSpan)
    (rest : List PSpan) (acc : List Token) (info : List (ℕ × ℕ × String))
    (repText : String) (r0 : List Token) (rlast : Token)
    (ha : applyReplacement reps sp.label (spanText docToks sp) = .ok repText)
    (htk : tk repText = r0 ++ [rlast])
    (hi : i < docToks.length) (hs : ¬ i < sp.start) :
    anonLoop tk reps docToks i (sp :: rest) acc info =
      anonLoop tk reps docToks sp.stop rest
        (acc ++ r0 ++ [{ rlast with ws := origLastWs docToks sp }])
        (info ++ [(acc.length, acc.length + (r0.length + 1), sp.label)]) := by
  rw [anonLoop_hit tk reps docToks i sp rest acc info repText ha hi hs, htk]
  rw [← List.append_assoc, setLastWs_append_singleton]
  simp

/-- Witness for the amended whitespace theorem at the concrete
two-token surrogate scenario. -/
theorem replacement_ws_amended_witness :
    applyReplacement cReps5 cSp5.label (spanText cToks3 cSp5) = .ok "X Y" ∧
    cTokenize5 "X Y" = [⟨"X", true⟩] ++ [⟨"Y", false⟩] ∧
    anonLoop cTokenize5 cReps5 cToks3 1 [cSp5] [⟨"a", true⟩] [] =
      anonLoop cTokenize5 cReps5 cToks3 2 []
        [⟨"a", true⟩, ⟨"X", true⟩, ⟨"Y", true⟩] [(1, 3, "L")] :=
  ⟨rfl, rfl,
   replacement_ws_amended cTokenize5 cReps5 cToks3 1 cSp5 [] [⟨"a", true⟩] []
     "X Y" [⟨"X", true⟩] ⟨"Y", false⟩ rfl rfl (by decide) (by decide)⟩

/-- C10.  A replacement that tokenizes to zero tokens appends nothing:
the walk records a zero-length output span at the deletion point and
overwrites the trailing-whitespace flag of the most recently emitted
output token — when one exists — with the deleted span's final
original flag (`setLastWs` rewrites the last element of a non-empty
output and is the identity on an empty one).  On a document with one
deleted span preceded by at least one token, the derived tokens are
the copies before the span — their last one's flag overwritten —
followed by the copies after the span. -/
theorem empty_replacement_reconstruction :
    (∀ (tk : String → List Token) (reps : List (String × Rule))
      (docToks : List Token) (i : ℕ) (sp : PSpan) (rest : List PSpan)
      (acc : List Token) (info : List (ℕ × ℕ × String)) (repText : String),
      applyReplacement reps sp.label (spanText docToks sp) = .ok repText →
      tk repText = [] → i < docToks.length → ¬ i < sp.start →
      anonLoop tk reps docToks i (sp :: rest) acc info =
        anonLoop tk reps docToks sp.stop rest
          (setLastWs acc (origLastWs docToks sp))
          (info ++ [(acc.length, acc.length, sp.label)])) ∧
    (∀ (ts : List Token) (t : Token) (b : Bool),
      setLastWs (ts ++ [t]) b = ts ++ [{ t with ws := b }]) ∧
    (∀ b : Bool, setLastWs [] b = []) ∧
    (∀ (tk : String → List Token) (reps : List (String × Rule))
      (docToks : List Token) (sp : PSpan) (repText : String),
      applyReplacement reps sp.label (spanText docToks sp) = .ok repText →
      tk repText = [] → 0 < sp.start → sp.start < sp.stop →
      sp.stop ≤ docToks.length →
      anonLoop tk reps docToks 0 [sp] [] [] =
        .ok (setLastWs (docToks.take sp.start) (origLastWs docToks sp) ++
            docToks.drop sp.stop,
          [(sp.start, sp.start, sp.label)])) := by
  refine ⟨?_, setLastWs_append_singleton, fun _ => rfl, ?_⟩
  · intro tk reps docToks i sp rest acc info repText ha htk hi hs
    rw [anonLoop_hit tk reps docToks i sp rest acc info repText ha hi hs, htk]
    simp
  · intro tk reps docToks sp repText ha htk h0 hse hsl
    rw [anonLoop_copy_upto tk reps docToks sp [] sp.start 0 [] []
      (by omega) (by omega) (by omega)]
    simp only [List.drop_zero, Nat.sub_zero, List.nil_append]
    rw [anonLoop_hit tk reps docToks sp.start sp [] _ _ repText ha
      (by omega) (by omega), htk]
    rw [List.append_nil]
    rw [anonLoop_no_spans tk reps docToks docToks.length sp.stop _ _ (by omega)]
    have hlen : (docToks.take sp.start).length = sp.start := by
      rw [List.length_take]
      omega
    rw [hlen]
    simp

/-- Witness for the empty-replacement theorem: deleting the middle token
of the three-token document removes it, re-flags the preceding copy
and records the zero-length span. -/
theorem empty_replacement_reconstruction_witness :
    applyReplacement cRepsE cSpE.label (spanText cToks3 cSpE) = .ok "" ∧
    cTokenizeE "" = [] ∧
    anonLoop cTokenizeE cRepsE cToks3 0 [cSpE] [] [] =
      .ok (setLastWs (cToks3.take 1) (origLastWs cToks3 cSpE) ++ cToks3.drop 2,
        [(1, 1, "E")]) :=
  ⟨rfl, rfl,
   empty_replacement_reconstruction.2.2.2 cTokenizeE cRepsE cToks3 cSpE "" rfl rfl
     (by decide) (by decide) (by decide)⟩

/-- C8, code bug.  Deriving `DATE_OF_BIRTH = DATETIME.replace(label=…,
context_patterns=…)` shares the base's pattern dict objects
(`dataclasses.replace` copies the reference, not the dicts) and then
reruns `__post_init__`, which writes the new label into every shared
dict in place: after the derivation, the base DATETIME entity's own
pattern dicts carry `label = "DATE_OF_BIRTH"`.  The claim — and the
spec and the frozen dataclass — require the base to be left exactly
as it was. -/
theorem entity_replace_mutates_base :
    dobBuild.2.patterns = datetimeBuild.2.patterns ∧
    datetimeBuild.2.patterns.getD [] ≠ [] ∧
    ((datetimeBuild.2.patterns.getD []).all
      (fun r => (datetimeBuild.1.get? r).map PatternDict.label
        == some (some "DATETIME")) = true) ∧
    ((datetimeBuild.2.patterns.getD []).all
      (fun r => (dobBuild.1.get? r).map PatternDict.label
        == some (some "DATE_OF_BIRTH")) = true) := by
  refine ⟨rfl, ?_, ?_, ?_⟩ <;> decide

/-- The registration loop never touches the phrase matcher; phrase
patterns reach it only in the flush step after a fully successful
batch. -/
theorem addPatternsLoop_phrase (d : ℚ) :
    ∀ (entries : List PatEntry) (st : RecState) (q : List (String × String)),
      (addPatternsLoop d st q entries).1.phraseMatcher = st.phraseMatcher := by
  intro entries
  induction entries with
  | nil => intro st q; rfl
  | cons e rest ih =>
    intro st q
    simp only [addPatternsLoop]
    cases hl : e.label with
    | none => rfl
    | some pl =>
      cases hp : e.pattern with
      | none => rfl
      | some v =>
        cases v with
        | phrase s => exact ih _ _
        | tokens b => exact ih _ _

/-- C9, counterexample.  The claim says a malformed entry fails with an
error listing the required and optional keys and is not partially
registered.  In the code, an entry whose `pattern` key is missing
raises a bare `KeyError("pattern")` — no listing — and only after
its match-key mapping has been written into
`_match_label_id_map`: the malformed entry is partially
registered. -/
theorem addPatterns_counterexample :
    addPatterns (mkRat 6 10) emptyRecState [c9Bad] =
      (⟨[], [("B_0", ⟨"B", "", mkRat 6 10⟩)], [], []⟩,
        some (.keyError "pattern")) ∧
    (addPatterns (mkRat 6 10) emptyRecState [c9Bad]).1.matchMap ≠ [] := by
  exact ⟨rfl, by decide⟩

/-- C9, amended.  An entry missing `label` raises `KeyError("label")`
with nothing registered; an entry missing `pattern` raises
`KeyError("pattern")` after its match-key mapping has already been
registered (partial registration); whenever the batch aborts with an
error, the phrase matcher is unchanged — earlier entries keep their
pattern-list and token-matcher registrations, but phrase patterns
queued in the failing batch are lost, as the concrete three-entry
batch shows. -/
theorem addPatterns_amended :
    (∀ (d : ℚ) (st : RecState) (e : PatEntry) (rest : List PatEntry),
      e.label = none → addPatterns d st (e :: rest) = (st, some (.keyError "label"))) ∧
    (∀ (d : ℚ) (st : RecState) (e : PatEntry) (rest : List PatEntry) (pl : String),
      e.label = some pl → e.pattern = none →
      addPatterns d st (e :: rest) =
        ({ st with matchMap := st.matchMap ++
            [(pl ++ "_" ++ toString st.patterns.length,
              ⟨pl, e.pid.getD "", e.score.getD d⟩)] },
          some (.keyError "pattern"))) ∧
    (∀ (d : ℚ) (st : RecState) (entries : List PatEntry) (err : PyKeyErr),
      (addPatterns d st entries).2 = some err →
      (addPatterns d st entries).1.phraseMatcher = st.phraseMatcher) ∧
    (addPatterns (mkRat 6 10) emptyRecState [c9Good1, c9Good2, c9Bad] =
      (⟨[c9Good1, c9Good2],
        [("A_0", ⟨"A", "", mkRat 9 10⟩), ("A_1", ⟨"A", "p2", mkRat 6 10⟩),
          ("B_2", ⟨"B", "", mkRat 6 10⟩)],
        [("A_0", "T1")], []⟩,
        some (.keyError "pattern"))) := by
  refine ⟨?_, ?_, ?_, by rfl⟩
  · intro d st e rest h
    simp [addPatterns, addPatternsLoop, h]
  · intro d st e rest pl h1 h2
    simp [addPatterns, addPatternsLoop, h1, h2]
  · intro d st entries err h
    unfold addPatterns at h ⊢
    rcases hres : addPatternsLoop d st [] entries with ⟨st', q, err'⟩
    rw [hres] at h
    cases err' with
    | none => exact Option.noConfusion h
    | some e0 =>
      have hst : st'.phraseMatcher = st.phraseMatcher := by
        have h2 := addPatternsLoop_phrase d entries st []
        rw [hres] at h2
        exact h2
      exact hst

/-- Witness for the amended registration theorem at concrete malformed
entries. -/
theorem addPatterns_amended_witness :
    (⟨none, none, none, none⟩ : PatEntry).label = none ∧
    addPatterns 1 emptyRecState [⟨none, none, none, none⟩] =
      (emptyRecState, some (.keyError "label")) ∧
    c9Bad.label = some "B" ∧ c9Bad.pattern = none ∧
    addPatterns 1 emptyRecState [c9Bad] =
      (⟨[], [("B_0", ⟨"B", "", 1⟩)], [], []⟩, some (.keyError "pattern")) :=
  ⟨rfl, addPatterns_amended.1 1 emptyRecState ⟨none, none, none, none⟩ [] rfl,
   rfl, rfl, addPatterns_amended.2.1 1 emptyRecState c9Bad [] "B" rfl rfl⟩

/-- A span that already carries supportive context is passed through
unchanged by the per-span enhancement body. -/
theorem processSpan_ctx_kept (cfg : EnhConfig) (depLink : ℕ × ℕ → Bool)
    (docLen : ℕ) (rawMatches : List (CtxMatchInfo × ℕ × ℕ))
    (ctxTextOf : ℕ × ℕ → String) (span : PSpan) (h : span.ctx ≠ []) :
    processSpan cfg depLink docLen rawMatches ctxTextOf span = some span := by
  unfold processSpan
  by_cases hi : cfg.ignoreSources.contains span.source
  · rw [if_pos hi]
  · rw [if_neg hi]
    have hne : span.ctx.isEmpty = false := by
      cases hc : span.ctx with
      | nil => exact absurd hc h
      | cons a t => rfl
    rw [if_pos hne]

/-- The per-span enhancement body either keeps the span, drops it, or
rebuilds it at the same range and label with the boosted-and-clamped
score and a non-empty supportive context. -/
theorem processSpan_cases (cfg : EnhConfig) (depLink : ℕ × ℕ → Bool)
    (docLen : ℕ) (rawMatches : List (CtxMatchInfo × ℕ × ℕ))
    (ctxTextOf : ℕ × ℕ → String) (span out : PSpan)
    (h : processSpan cfg depLink docLen rawMatches ctxTextOf span = some out) :
    out = span ∨
    (out.start = span.start ∧ out.stop = span.stop ∧ out.label = span.label ∧
     out.score = min (max (span.score + cfg.boost) cfg.minEnh) 1 ∧ out.ctx ≠ []) := by
  unfold processSpan at h
  by_cases hi : cfg.ignoreSources.contains span.source
  · rw [if_pos hi] at h
    exact Or.inl (Option.some.injEq _ _ ▸ h).symm
  · rw [if_neg hi] at h
    by_cases hc : span.ctx.isEmpty = false
    · rw [if_pos hc] at h
      exact Or.inl (Option.some.injEq _ _ ▸ h).symm
    · rw [if_neg hc] at h
      cases hscan : scanMatches cfg depLink docLen ctxTextOf span rawMatches [] with
      | none => rw [hscan] at h; exact absurd h (by simp)
      | some ctxList =>
        rw [hscan] at h
        cases ctxList with
        | nil => exact Or.inl (Option.some.injEq _ _ ▸ h).symm
        | cons c cs =>
          simp only [Option.some.injEq] at h
          subst h
          exact Or.inr ⟨rfl, rfl, rfl, rfl, by simp⟩

/-- C7.  Context enhancement is idempotent and bounded: a span already
carrying non-empty supportive context passes through an invocation
unchanged (also at the whole-collection level), and a freshly
boosted span receives exactly
`min(max(score + confidence_boost, min_enhanced_score), 1.0)`, so
its score never exceeds 1 however many supportive matches were
found. -/
theorem context_enhancer_idempotent_bounded :
    (∀ (cfg : EnhConfig) (depLink : ℕ × ℕ → Bool) (docLen : ℕ)
      (rawMatches : List (CtxMatchInfo × ℕ × ℕ)) (ctxTextOf : ℕ × ℕ → String)
      (span : PSpan), span.ctx ≠ [] →
      processSpan cfg depLink docLen rawMatches ctxTextOf span = some span) ∧
    (∀ (cfg : EnhConfig) (depLink : ℕ × ℕ → Bool) (docLen : ℕ)
      (rawMatches : List (CtxMatchInfo × ℕ × ℕ)) (ctxTextOf : ℕ × ℕ → String)
      (span out : PSpan),
      processSpan cfg depLink docLen rawMatches ctxTextOf span = some out →
      out = span ∨
      (out.start = span.start ∧ out.stop = span.stop ∧ out.label = span.label ∧
       out.score = min (max (span.score + cfg.boost) cfg.minEnh) 1 ∧
       out.ctx ≠ [])) ∧
    (∀ (cfg : EnhConfig) (depLink : ℕ × ℕ → Bool) (docLen : ℕ)
      (rawMatches : List (CtxMatchInfo × ℕ × ℕ)) (ctxTextOf : ℕ × ℕ → String)
      (span out : PSpan),
      processSpan cfg depLink docLen rawMatches ctxTextOf span = some out →
      out ≠ span → out.score ≤ 1) ∧
    (∀ (cfg : EnhConfig) (depLink : ℕ × ℕ → Bool) (docLen : ℕ)
      (rawMatches : List (CtxMatchInfo × ℕ × ℕ)) (ctxTextOf : ℕ × ℕ → String)
      (spans : List PSpan), (∀ s ∈ spans, s.ctx ≠ []) →
      enhancerProcess cfg depLink docLen rawMatches ctxTextOf spans = spans) := by
  refine ⟨processSpan_ctx_kept, processSpan_cases, ?_, ?_⟩
  · intro cfg depLink docLen rawMatches ctxTextOf span out h hne
    rcases processSpan_cases cfg depLink docLen rawMatches ctxTextOf span out h with
      he | ⟨-, -, -, hs, -⟩
    · exact absurd he hne
    · rw [hs]
      exact min_le_right _ _
  · intro cfg depLink docLen rawMatches ctxTextOf spans h
    induction spans with
    | nil => rfl
    | cons s rest ih =>
      have hs := processSpan_ctx_kept cfg depLink docLen rawMatches ctxTextOf s
        (h s (List.mem_cons_self s rest))
      simp only [enhancerProcess, List.filterMap_cons, hs]
      have ih2 := ih (fun t ht => h t (List.mem_cons_of_mem s ht))
      simp only [enhancerProcess] at ih2
      rw [ih2]

/-- Witness for the context-enhancer theorem: a span with recorded
supportive context passes through unchanged under the default
configuration. -/
theorem context_enhancer_witness :
    cSpanCtx.ctx ≠ [] ∧
    processSpan cCfg (fun _ => false) 3 [] (fun _ => "") cSpanCtx = some cSpanCtx :=
  ⟨by decide,
   context_enhancer_idempotent_bounded.1 cCfg (fun _ => false) 3 [] (fun _ => "")
     cSpanCtx (by decide)⟩

/-- Dict assignment preserves a property that holds for the stored
bindings and for the newly written binding. -/
theorem setKey_values {α β : Type} [DecidableEq α] (table : List (α × β)) (k : α)
    (v : β) (P : α × β → Prop) (hT : ∀ kv ∈ table, P kv) (hv : P (k, v)) :
    ∀ kv ∈ setKey table k v, P kv := by
  induction table with
  | nil =>
    intro kv h
    simp only [setKey, List.mem_singleton] at h
    subst h
    exact hv
  | cons p rest ih =>
    intro kv h
    simp only [setKey] at h
    by_cases he : p.1 = k
    · rw [if_pos he] at h
      rcases List.mem_cons.mp h with rfl | h2
      · exact hv
      · exact hT kv (List.mem_cons_of_mem p h2)
    · rw [if_neg he] at h
      rcases List.mem_cons.mp h with rfl | h2
      · exact hT _ (List.mem_cons_self _ _)
      · exact ih (fun x hx => hT x (List.mem_cons_of_mem _ hx)) kv h2

/-- Every key after a dict assignment is the written key or an existing
one. -/
theorem setKey_keys_sub {α β : Type} [DecidableEq α] (table : List (α × β)) (k : α)
    (v : β) : ∀ x ∈ (setKey table k v).map Prod.fst, x = k ∨ x ∈ table.map Prod.fst := by
  induction table with
  | nil =>
    intro x h
    simp only [setKey, List.map_singleton, List.mem_singleton] at h
    exact Or.inl h
  | cons p rest ih =>
    intro x h
    simp only [setKey] at h
    by_cases he : p.1 = k
    · rw [if_pos he] at h
      simp only [List.map_cons, List.mem_cons] at h
      rcases h with rfl | h
      · exact Or.inl rfl
      · exact Or.inr (by simp only [List.map_cons, List.mem_cons]; exact Or.inr h)
    · rw [if_neg he] at h
      simp only [List.map_cons, List.mem_cons] at h
      rcases h with rfl | h
      · exact Or.inr (by simp)
      · rcases ih x h with h1 | h1
        · exact Or.inl h1
        · exact Or.inr (by simp only [List.map_cons, List.mem_cons]; exact Or.inr h1)

/-- Dict assignment keeps the keys duplicate-free. -/
theorem setKey_nodup {α β : Type} [DecidableEq α] (table : List (α × β)) (k : α)
    (v : β) (h : (table.map Prod.fst).Nodup) :
    ((setKey table k v).map Prod.fst).Nodup := by
  induction table with
  | nil => simp [setKey]
  | cons p rest ih =>
    simp only [List.map_cons, List.nodup_cons] at h
    obtain ⟨hp, hr⟩ := h
    simp only [setKey]
    by_cases he : p.1 = k
    · rw [if_pos he]
      simp only [List.map_cons, List.nodup_cons]
      exact ⟨by rw [← he]; exact hp, hr⟩
    · rw [if_neg he]
      simp only [List.map_cons, List.nodup_cons]
      refine ⟨?_, ih hr⟩
      intro hmem
      rcases setKey_keys_sub rest k v p.1 hmem with h1 | h1
      · exact he h1
      · exact hp h1

/-- One pattern-phase step preserves any property holding for the table
bindings and for every binding the step may write. -/
theorem processHit_values (matchMap : List (ℕ × MapVal))
    (validators : List (String × (PSpan → Bool))) (table : List ((ℕ × ℕ) × PSpan))
    (hit : ℕ × ℕ × ℕ) (P : (ℕ × ℕ) × PSpan → Prop)
    (hT : ∀ kv ∈ table, P kv)
    (hnew : ∀ info : MapVal,
      P ((hit.2.1, hit.2.2),
        { start := hit.2.1, stop := hit.2.2, score := min info.score 1,
          label := info.label, spanId := info.pid })) :
    ∀ kv ∈ processHit matchMap validators table hit, P kv := by
  intro kv hkv
  cases hl : matchMap.lookup hit.1 with
  | none =>
    simp only [processHit, hl] at hkv
    exact hT kv hkv
  | some info =>
    simp only [processHit, hl] at hkv
    repeat' split at hkv
    all_goals first
      | exact hT kv hkv
      | exact setKey_values table _ _ P hT (hnew info) kv hkv

/-- One custom-matcher step preserves any property holding for the
table bindings and for every binding the step may write. -/
theorem processCustomHit_values (defaultScore : ℚ)
    (validators : List (String × (PSpan → Bool))) (label : String)
    (table : List ((ℕ × ℕ) × PSpan)) (hit : ℕ × ℕ × ℚ)
    (P : (ℕ × ℕ) × PSpan → Prop) (hT : ∀ kv ∈ table, P kv)
    (hnew : ∀ sc : ℚ, sc = defaultScore ∨ sc = min hit.2.2 1 →
      P ((hit.1, hit.2.1),
        { start := hit.1, stop := hit.2.1, score := sc, label := label })) :
    ∀ kv ∈ processCustomHit defaultScore validators label table hit, P kv := by
  intro kv hkv
  simp only [processCustomHit] at hkv
  repeat' split at hkv
  all_goals first
    | exact hT kv hkv
    | exact setKey_values table _ _ P hT (hnew _ (Or.inl rfl)) kv hkv
    | exact setKey_values table _ _ P hT (hnew _ (Or.inr rfl)) kv hkv

/-- A fold preserves any invariant each step preserves. -/
theorem foldl_preserve {σ τ : Type} (P : σ → Prop) (f : σ → τ → σ)
    (hf : ∀ s t, P s → P (f s t)) :
    ∀ (l : List τ) (s : σ), P s → P (l.foldl f s) := by
  intro l
  induction l with
  | nil => intro s h; exact h
  | cons t rest ih =>
    intro s h
    exact ih (f s t) (hf s t h)

/-- A pattern-phase step leaves the table unchanged or writes one
binding at the hit's own position. -/
theorem processHit_shape (matchMap : List (ℕ × MapVal))
    (validators : List (String × (PSpan → Bool))) (table : List ((ℕ × ℕ) × PSpan))
    (hit : ℕ × ℕ × ℕ) :
    processHit matchMap validators table hit = table ∨
    ∃ sp : PSpan, (sp.start, sp.stop) = (hit.2.1, hit.2.2) ∧
      processHit matchMap validators table hit =
        setKey table (hit.2.1, hit.2.2) sp := by
  cases hl : matchMap.lookup hit.1 with
  | none =>
    simp only [processHit, hl]
    exact Or.inl trivial
  | some info =>
    simp only [processHit, hl]
    repeat' split
    all_goals first
      | exact trivial
      | exact Or.inl trivial
      | exact Or.inl rfl
      | exact Or.inr ⟨_, rfl, rfl⟩

/-- A custom-phase step leaves the table unchanged or writes one
binding at the hit's own position. -/
theorem processCustomHit_shape (defaultScore : ℚ)
    (validators : List (String × (PSpan → Bool))) (label : String)
    (table : List ((ℕ × ℕ) × PSpan)) (hit : ℕ × ℕ × ℚ) :
    processCustomHit defaultScore validators label table hit = table ∨
    ∃ sp : PSpan, (sp.start, sp.stop) = (hit.1, hit.2.1) ∧
      processCustomHit defaultScore validators label table hit =
        setKey table (hit.1, hit.2.1) sp := by
  simp only [processCustomHit]
  repeat' split
  all_goals first
    | exact trivial
    | exact Or.inl trivial
    | exact Or.inl rfl
    | exact Or.inr ⟨_, rfl, rfl⟩

/-- A pattern-phase step keeps the table well-formed: duplicate-free
keys, each binding keyed by its span's own position. -/
theorem processHit_wf (matchMap : List (ℕ × MapVal))
    (validators : List (String × (PSpan → Bool))) (table : List ((ℕ × ℕ) × PSpan))
    (hit : ℕ × ℕ × ℕ)
    (h : (table.map Prod.fst).Nodup ∧ ∀ kv ∈ table, (kv.2.start, kv.2.stop) = kv.1) :
    ((processHit matchMap validators table hit).map Prod.fst).Nodup ∧
    ∀ kv ∈ processHit matchMap validators table hit,
      (kv.2.start, kv.2.stop) = kv.1 := by
  rcases processHit_shape matchMap validators table hit with he | ⟨sp, hk, he⟩
  · rw [he]
    exact h
  · rw [he]
    exact ⟨setKey_nodup table _ _ h.1,
      setKey_values table _ _ (fun kv => (kv.2.start, kv.2.stop) = kv.1) h.2 hk⟩

/-- A custom-phase step keeps the table well-formed. -/
theorem processCustomHit_wf (defaultScore : ℚ)
    (validators : List (String × (PSpan → Bool))) (label : String)
    (table : List ((ℕ × ℕ) × PSpan)) (hit : ℕ × ℕ × ℚ)
    (h : (table.map Prod.fst).Nodup ∧ ∀ kv ∈ table, (kv.2.start, kv.2.stop) = kv.1) :
    ((processCustomHit defaultScore validators label table hit).map Prod.fst).Nodup ∧
    ∀ kv ∈ processCustomHit defaultScore validators label table hit,
      (kv.2.start, kv.2.stop) = kv.1 := by
  rcases processCustomHit_shape defaultScore validators label table hit with
    he | ⟨sp, hk, he⟩
  · rw [he]
    exact h
  · rw [he]
    exact ⟨setKey_nodup table _ _ h.1,
      setKey_values table _ _ (fun kv => (kv.2.start, kv.2.stop) = kv.1) h.2 hk⟩

/-- C6.  `Recognizer.match` deduplicates hits by exact position — an
existing hit is kept when its score is greater or equal, otherwise
replaced — applies the label's validator before a hit may occupy its
position, and clamps every candidate score to at most 1 (given the
constructor's own clamp of the default score): a pattern registered
with score 2 yields score 1, same-position hits scored 0.9 and 0.8
(in either order) yield one span scored 0.9, and a validator-rejected
higher-scored hit leaves the position free for a later lower-scored
hit. -/
theorem recognizer_match_dedup (defaultScore : ℚ) (matchMap : List (ℕ × MapVal))
    (validators : List (String × (PSpan → Bool)))
    (customs : List (String × List (ℕ × ℕ × ℚ))) (hits : List (ℕ × ℕ × ℕ))
    (hd : defaultScore ≤ 1) :
    (∀ sp ∈ recognizerMatch defaultScore matchMap validators customs hits,
      sp.score ≤ 1) ∧
    (recognizerMatch defaultScore matchMap validators customs hits).Pairwise
      (fun a b => (a.start, a.stop) ≠ (b.start, b.stop)) ∧
    recognizerMatch (mkRat 6 10) [(1, ⟨"L", "", 2⟩)] [] [] [(1, 0, 1)] =
      [{ start := 0, stop := 1, score := 1, label := "L" }] ∧
    recognizerMatch (mkRat 6 10)
      [(1, ⟨"L", "", mkRat 9 10⟩), (2, ⟨"L", "", mkRat 8 10⟩)] [] []
      [(1, 0, 1), (2, 0, 1)] =
      [{ start := 0, stop := 1, score := mkRat 9 10, label := "L" }] ∧
    recognizerMatch (mkRat 6 10)
      [(1, ⟨"L", "", mkRat 8 10⟩), (2, ⟨"L", "", mkRat 9 10⟩)] [] []
      [(1, 0, 1), (2, 0, 1)] =
      [{ start := 0, stop := 1, score := mkRat 9 10, label := "L" }] ∧
    recognizerMatch (mkRat 6 10)
      [(1, ⟨"A", "", mkRat 9 10⟩), (2, ⟨"B", "", mkRat 5 10⟩)]
      [("A", fun _ => false)] [] [(1, 0, 1), (2, 0, 1)] =
      [{ start := 0, stop := 1, score := mkRat 5 10, label := "B" }] := by
  have ht1 := foldl_preserve (fun t : List ((ℕ × ℕ) × PSpan) => ∀ kv ∈ t, kv.2.score ≤ 1)
    (processHit matchMap validators)
    (fun t hit h => processHit_values matchMap validators t hit _ h
      (fun info => min_le_right _ _))
    hits [] (by simp)
  have ht2 := foldl_preserve (fun t : List ((ℕ × ℕ) × PSpan) => ∀ kv ∈ t, kv.2.score ≤ 1)
    (fun t lc => lc.2.foldl (processCustomHit defaultScore validators lc.1) t)
    (fun t lc h =>
      foldl_preserve (fun t2 : List ((ℕ × ℕ) × PSpan) => ∀ kv ∈ t2, kv.2.score ≤ 1)
        (processCustomHit defaultScore validators lc.1)
        (fun t2 hit h2 => processCustomHit_values defaultScore validators lc.1 t2 hit
          (fun kv => kv.2.score ≤ 1) h2
          (by
            intro sc hsc
            rcases hsc with rfl | rfl
            · exact hd
            · exact min_le_right _ _))
        lc.2 t h)
    customs _ ht1
  have hw1 := foldl_preserve
    (fun t : List ((ℕ × ℕ) × PSpan) =>
      (t.map Prod.fst).Nodup ∧ ∀ kv ∈ t, (kv.2.start, kv.2.stop) = kv.1)
    (processHit matchMap validators)
    (fun t hit h => processHit_wf matchMap validators t hit h)
    hits [] (by simp)
  have hw2 := foldl_preserve
    (fun t : List ((ℕ × ℕ) × PSpan) =>
      (t.map Prod.fst).Nodup ∧ ∀ kv ∈ t, (kv.2.start, kv.2.stop) = kv.1)
    (fun t lc => lc.2.foldl (processCustomHit defaultScore validators lc.1) t)
    (fun t lc h =>
      foldl_preserve
        (fun t2 : List ((ℕ × ℕ) × PSpan) =>
          (t2.map Prod.fst).Nodup ∧ ∀ kv ∈ t2, (kv.2.start, kv.2.stop) = kv.1)
        (processCustomHit defaultScore validators lc.1)
        (fun t2 hit h2 => processCustomHit_wf defaultScore validators lc.1 t2 hit h2)
        lc.2 t h)
    customs _ hw1
  refine ⟨?_, ?_, rfl, rfl, rfl, rfl⟩
  · intro sp hsp
    simp only [recognizerMatch] at hsp
    have hsp2 := (List.perm_insertionSort posLE _).mem_iff.mp hsp
    rcases List.mem_map.mp hsp2 with ⟨kv, hkv, rfl⟩
    exact ht2 kv hkv
  · have hpw2 : (customs.foldl
        (fun t lc => lc.2.foldl (processCustomHit defaultScore validators lc.1) t)
        (hits.foldl (processHit matchMap validators) [])).Pairwise
        (fun a b => a.1 ≠ b.1) := (List.pairwise_map).mp hw2.1
    have hpw3 : (customs.foldl
        (fun t lc => lc.2.foldl (processCustomHit defaultScore validators lc.1) t)
        (hits.foldl (processHit matchMap validators) [])).Pairwise
        (fun a b => (a.2.start, a.2.stop) ≠ (b.2.start, b.2.stop)) := by
      refine hpw2.imp_of_mem ?_
      intro a b ha hb hne hcontra
      exact hne ((hw2.2 a ha).symm.trans (hcontra.trans (hw2.2 b hb)))
    have hpw4 : ((customs.foldl
        (fun t lc => lc.2.foldl (processCustomHit defaultScore validators lc.1) t)
        (hits.foldl (processHit matchMap validators) [])).map Prod.snd).Pairwise
        (fun x y => (x.start, x.stop) ≠ (y.start, y.stop)) :=
      (List.pairwise_map).mpr hpw3
    exact ((List.perm_insertionSort posLE _).pairwise_iff
      (fun h e => h e.symm)).mpr hpw4

/-- Witness for the recognizer-match theorem at the clamped default
score `0.6`. -/
theorem recognizer_match_dedup_witness :
    (mkRat 6 10 : ℚ) ≤ 1 ∧
    (∀ sp ∈ recognizerMatch (mkRat 6 10) [(1, ⟨"L", "", 2⟩)] [] [] [(1, 0, 1)],
      sp.score ≤ 1) ∧
    recognizerMatch (mkRat 6 10) [(1, ⟨"L", "", 2⟩)] [] [] [(1, 0, 1)] =
      [{ start := 0, stop := 1, score := 1, label := "L" }] :=
  ⟨by norm_num [mkRat, Rat.normalize],
   (recognizer_match_dedup (mkRat 6 10) [(1, ⟨"L", "", 2⟩)] [] [] [(1, 0, 1)]
     (by norm_num [mkRat, Rat.normalize])).1,
   (recognizer_match_dedup (mkRat 6 10) [(1, ⟨"L", "", 2⟩)] [] [] [(1, 0, 1)]
     (by norm_num [mkRat, Rat.normalize])).2.2.1⟩

end Anonymacy
